import Mathlib

/-!
Verification development for the stateful task reconciliation engine of the
AiClean repository.  The engine is specified by the design document
`docs/stateful-task-tracking.md` (Python pseudocode) together with the SQL
schema (`tasks` table).  Scores are modelled over `ℚ`; the Python floats in
the source are exact decimal constants, so rational arithmetic is faithful.
-/

namespace AiClean

/-! ## Text similarity module

`calculate_similarity` in the source is
`SequenceMatcher(None, task1.lower(), task2.lower()).ratio()` from Python's
`difflib`.  We embed the stdlib algorithm: `ratio = 2*M/T` where `M` is the
total size of the matching blocks found by recursively applying
`find_longest_match`, and `T` is the sum of the lengths; `T = 0` yields `1.0`.
`isjunk` is `None`, so the junk machinery is inert; the `autojunk` popularity
heuristic only activates for strings of 200 or more characters and is omitted
here (task descriptions are short phrases), and the block-extension loops of
`find_longest_match` are no-ops in that regime, so they are omitted as well.
-/

/-- Python `str.lower()` applied to the string's characters. -/
def strLower (s : String) : List Char :=
  s.data.map Char.toLower

/-- Inner loop of difflib's `find_longest_match` for one row `i` (one element
`ai` of the first sequence): scan the second sequence, and for each position
`j` holding `ai`, record the length `k` of the common run ending at `(i, j)`
(`k = j2len[j-1] + 1` from the previous row) and update the best block when
`k` strictly exceeds the current best size.  `prev` is the previous row's
`j2len` map, `cur` the row being built (absent keys are `0`, as in the Python
dict with default `0`). -/
def scanRowAux (ai : Char) (i : Nat) (prev : Nat → Nat) :
    List Char → Nat → (Nat → Nat) → Nat × Nat × Nat → (Nat → Nat) × (Nat × Nat × Nat)
  | [], _, cur, best => (cur, best)
  | c :: bs, j, cur, best =>
    if c = ai then
      let k := if j = 0 then 1 else prev (j - 1) + 1
      let cur' := fun j' => if j' = j then k else cur j'
      let best' := if best.2.2 < k then (i + 1 - k, j + 1 - k, k) else best
      scanRowAux ai i prev bs (j + 1) cur' best'
    else
      scanRowAux ai i prev bs (j + 1) cur best

/-- Outer loop of `find_longest_match`: process each row of the first
sequence in turn, threading the `j2len` map and the best block. -/
def scanRows (b : List Char) : List Char → Nat → (Nat → Nat) → Nat × Nat × Nat → Nat × Nat × Nat
  | [], _, _, best => best
  | a :: as', i, prev, best =>
    let s := scanRowAux a i prev b 0 (fun _ => 0) best
    scanRows b as' (i + 1) s.1 s.2

/-- difflib's `find_longest_match(0, len(a), 0, len(b))` with no junk:
returns `(besti, bestj, bestsize)`, initialised to `(alo, blo, 0) = (0,0,0)`. -/
def find_longest_match (a b : List Char) : Nat × Nat × Nat :=
  scanRows b a 0 (fun _ => 0) (0, 0, 0)

/-- Total size of the matching blocks of `get_matching_blocks`: the longest
match splits the sequences in two, and each side is processed recursively.
The fuel bounds the recursion depth; `a.length + b.length` is sufficient
because each recursive call strictly reduces the combined length (the merging
of adjacent blocks done by difflib does not change the total size). -/
def matchingTotal : Nat → List Char → List Char → Nat
  | 0, _, _ => 0
  | fuel + 1, a, b =>
    let m := find_longest_match a b
    if m.2.2 = 0 then 0
    else
      m.2.2 + matchingTotal fuel (a.take m.1) (b.take m.2.1)
        + matchingTotal fuel (a.drop (m.1 + m.2.2)) (b.drop (m.2.1 + m.2.2))

/-- difflib's `ratio()`: `2*M/T`, and `1.0` when both sequences are empty
(`_calculate_ratio`). -/
def seqRatioQ (a b : List Char) : ℚ :=
  if a.length + b.length = 0 then 1
  else 2 * (matchingTotal (a.length + b.length) a b : ℚ) / ((a.length : ℚ) + (b.length : ℚ))

/-- Source `calculate_similarity(task1, task2)`:
`SequenceMatcher(None, task1.lower(), task2.lower()).ratio()`. -/
def calculate_similarity (task1 task2 : String) : ℚ :=
  seqRatioQ (strLower task1) (strLower task2)

/-! ### Keyword similarity (source `extract_keywords` / `keyword_similarity`) -/

/-- The stopword set of the source's `extract_keywords`. -/
def stopwords : Finset String :=
  {"the", "a", "an", "and", "or", "but", "in", "on", "at", "to", "for", "of", "with", "by"}

/-- Python `str.split()` (no separator): split on runs of whitespace,
producing no empty words.  `acc` holds the characters of the current word in
reverse. -/
def splitWordsAux : List Char → List Char → List String
  | [], acc => if acc.isEmpty then [] else [String.mk acc.reverse]
  | c :: rest, acc =>
    if c.isWhitespace then
      if acc.isEmpty then splitWordsAux rest []
      else String.mk acc.reverse :: splitWordsAux rest []
    else
      splitWordsAux rest (c :: acc)

/-- Source `extract_keywords`: `set(task.lower().split()) - stopwords`. -/
def extract_keywords (task : String) : Finset String :=
  (splitWordsAux (strLower task) []).toFinset \ stopwords

/-- Source `keyword_similarity`: Jaccard ratio of the two keyword sets, `0.0`
when either set is empty. -/
def keyword_similarity (task1 task2 : String) : ℚ :=
  if extract_keywords task1 = ∅ ∨ extract_keywords task2 = ∅ then 0
  else ((extract_keywords task1 ∩ extract_keywords task2).card : ℚ)
    / ((extract_keywords task1 ∪ extract_keywords task2).card : ℚ)

/-- Follows the spec's words (§4.1), for comparison with the source: combined
similarity as the weighted average of the character-sequence ratio (weight
0.5) and the keyword Jaccard ratio (weight 0.5).  No such combination exists
in the source; the source's `calculate_similarity` is the sequence ratio
alone. -/
def similarity_spec (task1 task2 : String) : ℚ :=
  1/2 * calculate_similarity task1 task2 + 1/2 * keyword_similarity task1 task2

/-! ## Data model

`tasks` table (SQL schema, migration 001): `status` is one of `pending`,
`completed`, `auto_completed`, `ignored`, `cancelled` (CHECK constraint),
`confidence_score REAL DEFAULT 0.0`, `detection_count INTEGER DEFAULT 1`.
`days_since_created()` (used by the completion rules) is modelled as the
stored field `age_days`; wall-clock time is otherwise irrelevant to the
claims. -/

inductive TaskStatus where
  | pending
  | completed
  | auto_completed
  | ignored
  | cancelled
deriving DecidableEq

structure Task where
  id : Nat
  description : String
  status : TaskStatus
  confidence_score : ℚ
  detection_count : Nat
  age_days : Nat
deriving DecidableEq

/-! ## Completion rules (source `CompletionRule` / `COMPLETION_RULES` /
`should_auto_complete`) -/

structure CompletionRule where
  name : String
  condition : Task → List String → Bool
  confidence : ℚ
  description : String

/-- The source's ordered rule list, verbatim: each condition pairs a task
signal with the absence of any sufficiently similar current description. -/
def COMPLETION_RULES : List CompletionRule :=
  [⟨"not_detected_multiple_cycles",
    fun task current_tasks =>
      decide (2 ≤ task.detection_count) &&
        !(current_tasks.any fun ct => decide ((6 : ℚ)/10 < calculate_similarity task.description ct)),
    9/10,
    "Task was consistently detected before but not found in current analysis"⟩,
   ⟨"high_confidence_original",
    fun task current_tasks =>
      decide ((8 : ℚ)/10 < task.confidence_score) &&
        !(current_tasks.any fun ct => decide ((5 : ℚ)/10 < calculate_similarity task.description ct)),
    8/10,
    "High-confidence task no longer detected"⟩,
   ⟨"long_standing_task",
    fun task current_tasks =>
      decide (7 ≤ task.age_days) &&
        !(current_tasks.any fun ct => decide ((4 : ℚ)/10 < calculate_similarity task.description ct)),
    7/10,
    "Long-standing task no longer detected"⟩]

/-- Source `should_auto_complete`: first matching rule wins; no match yields
`(False, 0.0, "Task still appears to be present")`. -/
def should_auto_complete (task : Task) (current_tasks : List String) : Bool × ℚ × String :=
  match COMPLETION_RULES.find? (fun r => r.condition task current_tasks) with
  | some r => (true, r.confidence, r.description)
  | none => (false, 0, "Task still appears to be present")

/-- The auto-completion step of `process_analysis_results` applied to one
completion candidate: the task is marked `auto_completed` exactly when
`should_auto_complete` returns `True`; no confidence floor is consulted. -/
def apply_auto_completion (task : Task) (current_tasks : List String) : Task :=
  if (should_auto_complete task current_tasks).1 then
    { task with status := TaskStatus.auto_completed }
  else task

/-- Source `handle_false_auto_completion`: the user-feedback handler reverts
the auto-completion by setting the task's status back to `pending`
(`self.task_repo.update_status(task_id, TaskStatus.PENDING)`). -/
def handle_false_auto_completion (task : Task) : Task :=
  { task with status := TaskStatus.pending }

/-! ## Reinforcement and task creation -/

/-- The reinforcement step of `process_analysis_results`: for each updated
task id the orchestrator calls `self.task_repo.increment_detection_count(task_id)`.
The repository method receives only the task id, so it is modelled as
incrementing `detection_count` by one (its name and the schema comment
`how many times this task was detected`); in particular no detection
confidence is available to it, so `confidence_score` is unchanged. -/
def reinforce (task : Task) : Task :=
  { task with detection_count := task.detection_count + 1 }

/-- `n` successive reinforcement events. -/
def reinforceN : Nat → Task → Task
  | 0, task => task
  | n + 1, task => reinforce (reinforceN n task)

/-- Source `calculate_task_specificity`: the three curated indicator lists. -/
def specific_indicators : List String :=
  ["pick up", "put away", "wipe down", "organize", "fold",
   "vacuum", "dust", "clean", "wash", "sort"]

def object_indicators : List String :=
  ["shirt", "book", "cup", "plate", "toy", "shoe", "pillow",
   "remote", "magazine", "bottle", "bag", "jacket"]

def location_indicators : List String :=
  ["floor", "table", "counter", "couch", "bed", "shelf",
   "chair", "desk", "nightstand"]

/-- `needle` begins the list `hay`. -/
def listStartsWith : List Char → List Char → Bool
  | _, [] => true
  | [], _ :: _ => false
  | a :: as', b :: bs => a = b && listStartsWith as' bs

/-- Python's substring test `needle in hay`. -/
def containsSeq (needle : List Char) : List Char → Bool
  | [] => listStartsWith [] needle
  | c :: rest => listStartsWith (c :: rest) needle || containsSeq needle rest

/-- Source `calculate_task_specificity`: `0.4` for an action verb, `+0.3`
for an object noun, `+0.3` for a location noun (substring tests against the
lower-cased description), capped at `1.0`. -/
def calculate_task_specificity (task_description : String) : ℚ :=
  min 1
    ((if specific_indicators.any fun ind => containsSeq (strLower ind) (strLower task_description)
        then (4 : ℚ)/10 else 0)
      + (if object_indicators.any fun ind => containsSeq (strLower ind) (strLower task_description)
        then (3 : ℚ)/10 else 0)
      + (if location_indicators.any fun ind => containsSeq (strLower ind) (strLower task_description)
        then (3 : ℚ)/10 else 0))

/-- Modelled from the spec: `_create_new_task` is called by
`process_analysis_results` but its body is absent from the repository.  The
spec (§4.6 step 4) creates the task with `status=pending`,
`detection_count=1` (both also the schema defaults) and
`final = detectionConfidence * (0.8 + 0.2*specificity)`; this coincides with
the source's `calculate_task_confidence` applied to a fresh task (empty
detection history, so no consistency bonus; default `image_quality = 1.0`),
including its final `min(1.0, ·)` cap.  The store assigns ids
(AUTOINCREMENT); the id is irrelevant to the claims and set to `0`. -/
def create_task_confidence (description : String) (detectionConfidence : ℚ) : ℚ :=
  min 1 (detectionConfidence * (8/10 + 2/10 * calculate_task_specificity description))

def create_new_task (description : String) (detectionConfidence : ℚ) : Task :=
  ⟨0, description, TaskStatus.pending, create_task_confidence description detectionConfidence, 1, 0⟩

/-! ## Threshold adaptation (source `adjust_similarity_threshold`) -/

/-- Source `adjust_similarity_threshold`, as a function of the
auto-completion accuracy it branches on: `base_threshold = 0.75`, minus
`0.1` when accuracy exceeds `0.9`, plus `0.1` when accuracy is below `0.7`,
otherwise the base. -/
def adjust_similarity_threshold (accuracy : ℚ) : ℚ :=
  if 9/10 < accuracy then 3/4 - 1/10
  else if accuracy < 7/10 then 3/4 + 1/10
  else 3/4

/-- The spec's per-zone threshold record (§3): the source only ever stores a
similarity threshold; no resolution confidence floor appears anywhere in the
repository. -/
structure ZoneThresholds where
  similarity_threshold : ℚ
  resolution_confidence_floor : ℚ
deriving DecidableEq

/-- The source's threshold adaptation applied to a zone's thresholds: only
the similarity threshold is recomputed; no code in the repository computes
or writes a resolution confidence floor, so that component is left at its
prior value. -/
def adjustZone (accuracy : ℚ) (z : ZoneThresholds) : ZoneThresholds :=
  ⟨adjust_similarity_threshold accuracy, z.resolution_confidence_floor⟩

/-- Follows the spec's words (§4.5), for comparison with the source: on high
accuracy both thresholds drop `0.1` below their base defaults
(`0.75` / `0.7`), on low accuracy both rise `0.1`, otherwise both revert to
base; always clamped to `[0.3, 0.95]`. -/
def clampThreshold (x : ℚ) : ℚ := max (3/10) (min (19/20) x)

def adjust_spec (accuracy : ℚ) : ZoneThresholds :=
  if 9/10 < accuracy then
    ⟨clampThreshold (3/4 - 1/10), clampThreshold (7/10 - 1/10)⟩
  else if accuracy < 7/10 then
    ⟨clampThreshold (3/4 + 1/10), clampThreshold (7/10 + 1/10)⟩
  else ⟨3/4, 7/10⟩

/-! ## Task matcher

Modelled from the spec: `compare_analysis_results` is declared in the design
document with only a signature and a docstring sketch; its body is absent
from the repository.  The matcher below follows spec §4.3: every
(current description, open task) pair with similarity at least the zone's
threshold is a candidate; repeatedly the highest-scoring candidate is
assigned (ties broken by higher detection confidence, then lexical order of
the current description) and all candidates sharing its current description
or its open task are discarded.  Scores come from the source's
`calculate_similarity`.  Inputs are validated first (spec §7:
`InvalidInputError` for an empty description or a detection confidence
outside `[0, 1]`). -/

structure CurrentDetection where
  description : String
  detectionConfidence : ℚ
deriving DecidableEq

/-- One matcher candidate: `c` is the index of the current detection
(distinct detections may share a description), `o` the open task's id. -/
structure Cand where
  c : Nat
  cdesc : String
  cconf : ℚ
  o : Nat
  odesc : String
  score : ℚ
deriving DecidableEq

/-- Candidate order of spec §4.3: higher score first, then higher detection
confidence, then lexically smaller current description. -/
def betterCand (p q : Cand) : Bool :=
  if p.score ≠ q.score then decide (q.score < p.score)
  else if p.cconf ≠ q.cconf then decide (q.cconf < p.cconf)
  else decide (p.cdesc < q.cdesc)

/-- Select the best candidate (earliest wins on full ties). -/
def pickBest (cands : List Cand) : Option Cand :=
  cands.foldl
    (fun acc q =>
      match acc with
      | none => some q
      | some p => if betterCand q p then some q else some p)
    none

/-- Greedy assignment: take the best candidate, discard all candidates that
share its current detection or its open task, repeat. -/
def greedyAssign : Nat → List Cand → List Cand
  | 0, _ => []
  | fuel + 1, cands =>
    match pickBest cands with
    | none => []
    | some p => p :: greedyAssign fuel (cands.filter fun q => q.c ≠ p.c && q.o ≠ p.o)

/-- All candidate pairs whose similarity reaches the threshold. -/
def candidatePairs (current : List CurrentDetection) (open_tasks : List Task)
    (threshold : ℚ) : List Cand :=
  ((List.range current.length).zip current).flatMap fun ci =>
    (open_tasks.filterMap fun t =>
      let s := calculate_similarity ci.2.description t.description
      if threshold ≤ s then some (⟨ci.1, ci.2.description, ci.2.detectionConfidence, t.id, t.description, s⟩ : Cand)
      else none)

/-- The assignment the matcher produces for the given inputs. -/
def matchAssignment (current : List CurrentDetection) (open_tasks : List Task)
    (threshold : ℚ) : List Cand :=
  let cands := candidatePairs current open_tasks threshold
  greedyAssign cands.length cands

inductive EngineError where
  | invalidInput
deriving DecidableEq

/-- Spec §7: a detection is malformed when its description is empty or its
confidence lies outside `[0, 1]`. -/
def validDetection (d : CurrentDetection) : Bool :=
  d.description ≠ "" && decide (0 ≤ d.detectionConfidence) && decide (d.detectionConfidence ≤ 1)

/-- Spec §4.3 `MatchResult`; `new` keeps the full detection (description and
confidence) because task creation needs the confidence. -/
structure MatchResult where
  new : List CurrentDetection
  reinforced : List (Nat × String × ℚ)
  unmatched_open : List Nat
deriving DecidableEq

/-- Modelled from the spec: the matcher entry point (§4.3) with input
validation (§7). -/
def match_tasks (current : List CurrentDetection) (open_tasks : List Task)
    (threshold : ℚ) : Except EngineError MatchResult :=
  if ¬ current.all validDetection then Except.error EngineError.invalidInput
  else
    let asg := matchAssignment current open_tasks threshold
    Except.ok
      ⟨((List.range current.length).zip current).filterMap fun ci =>
          if asg.any fun p => p.c = ci.1 then none else some ci.2,
        asg.map fun p => (p.o, p.cdesc, p.cconf),
        open_tasks.filterMap fun t =>
          if asg.any fun p => p.o = t.id then none else some t.id⟩

/-! ## Reconciliation orchestrator

Modelled from the spec where the source is silent: `process_analysis_results`
(source) sequences: load pending tasks, match, create new tasks, reinforce
updated tasks, evaluate unmatched tasks for auto-completion, and return an
`AnalysisResult` of counts; a matcher failure aborts the zone's cycle before
any state change (spec §4.6/§7, consistent with the source's
`handle_analysis_failure`, which performs no task mutation). -/

/-- Source `AnalysisResult`: the three counts returned by
`process_analysis_results`. -/
structure AnalysisResult where
  new_tasks_created : Nat
  tasks_updated : Nat
  tasks_auto_completed : Nat
deriving DecidableEq

/-- One reconciliation pass for one zone over its task list. -/
def reconcile_zone (current : List CurrentDetection) (tasks : List Task)
    (threshold : ℚ) : Except EngineError (List Task × AnalysisResult) :=
  match match_tasks current (tasks.filter fun t => t.status = TaskStatus.pending) threshold with
  | Except.error e => Except.error e
  | Except.ok r =>
    let descs := current.map fun d => d.description
    let updated := tasks.map fun t =>
      if t.status = TaskStatus.pending then
        if r.reinforced.any fun p => p.1 = t.id then reinforce t
        else if r.unmatched_open.any fun i => i = t.id then apply_auto_completion t descs
        else t
      else t
    Except.ok
      (updated ++ r.new.map fun d => create_new_task d.description d.detectionConfidence,
       ⟨r.new.length, r.reinforced.length, r.unmatched_open.length⟩)

/-- A whole cycle across zones: each zone's task list is reconciled against
that zone's input; a failed zone keeps its previous task state. -/
def run_cycle (inputs : Nat → List CurrentDetection) (thresholds : Nat → ℚ)
    (state : Nat → List Task) : Nat → List Task :=
  fun z =>
    match reconcile_zone (inputs z) (state z) (thresholds z) with
    | Except.ok st => st.1
    | Except.error _ => state z

/-! ## Lemmas: bounds of the sequence matcher

The row scan maintains `j2len` values bounded by the row index and the
column index (a common run ending at `(i, j)` has length at most
`min (i+1) (j+1)`), so the best block `(bi, bj, k)` always satisfies
`bi + k ≤ |a|` and `bj + k ≤ |b|`; consequently the total matched size is at
most `min |a| |b|` and the ratio lies in `[0, 1]`. -/

theorem scanRowAux_bound (ai : Char) (i la lb : Nat) (prev : Nat → Nat)
    (hprev : ∀ j', prev j' ≤ i ∧ prev j' ≤ j' + 1) (bs : List Char) :
    ∀ (j : Nat) (cur : Nat → Nat) (best : Nat × Nat × Nat),
    j + bs.length = lb → i < la →
    (∀ j', cur j' ≤ i + 1 ∧ cur j' ≤ j' + 1) →
    best.1 + best.2.2 ≤ la → best.2.1 + best.2.2 ≤ lb →
    (∀ j', (scanRowAux ai i prev bs j cur best).1 j' ≤ i + 1
        ∧ (scanRowAux ai i prev bs j cur best).1 j' ≤ j' + 1)
    ∧ (scanRowAux ai i prev bs j cur best).2.1 + (scanRowAux ai i prev bs j cur best).2.2.2 ≤ la
    ∧ (scanRowAux ai i prev bs j cur best).2.2.1 + (scanRowAux ai i prev bs j cur best).2.2.2 ≤ lb := by
  induction bs with
  | nil =>
    intro j cur best _ _ hcur hb1 hb2
    simpa [scanRowAux] using ⟨hcur, hb1, hb2⟩
  | cons c bs ih =>
    intro j cur best hlb hla hcur hb1 hb2
    have hk : (if j = 0 then 1 else prev (j - 1) + 1) ≤ i + 1 := by
      by_cases hj : j = 0
      · simp [hj]
      · simpa [hj] using (hprev (j - 1)).1
    have hk' : (if j = 0 then 1 else prev (j - 1) + 1) ≤ j + 1 := by
      by_cases hj : j = 0
      · simp [hj]
      · have := (hprev (j - 1)).2
        simp only [if_neg hj]
        omega
    by_cases hc : c = ai
    · simp only [scanRowAux, if_pos hc]
      apply ih
      · simp at hlb; omega
      · exact hla
      · intro j'
        by_cases hj' : j' = j
        · simpa [hj'] using ⟨hk, hk'⟩
        · simpa [hj'] using hcur j'
      · by_cases hup : best.2.2 < (if j = 0 then 1 else prev (j - 1) + 1)
        · simp only [if_pos hup]; omega
        · simpa [if_neg hup] using hb1
      · by_cases hup : best.2.2 < (if j = 0 then 1 else prev (j - 1) + 1)
        · simp only [if_pos hup]
          simp at hlb
          omega
        · simpa [if_neg hup] using hb2
    · simp only [scanRowAux, if_neg hc]
      apply ih
      · simp at hlb; omega
      · exact hla
      · exact hcur
      · exact hb1
      · exact hb2

theorem scanRows_bound (b : List Char) (la : Nat) (as' : List Char) :
    ∀ (i : Nat) (prev : Nat → Nat) (best : Nat × Nat × Nat),
    i + as'.length = la →
    (∀ j', prev j' ≤ i ∧ prev j' ≤ j' + 1) →
    best.1 + best.2.2 ≤ la → best.2.1 + best.2.2 ≤ b.length →
    (scanRows b as' i prev best).1 + (scanRows b as' i prev best).2.2 ≤ la
    ∧ (scanRows b as' i prev best).2.1 + (scanRows b as' i prev best).2.2 ≤ b.length := by
  induction as' with
  | nil =>
    intro i prev best _ _ hb1 hb2
    simpa [scanRows] using ⟨hb1, hb2⟩
  | cons a as ih =>
    intro i prev best hla hprev hb1 hb2
    simp only [scanRows]
    have h := scanRowAux_bound a i la b.length prev hprev b 0 (fun _ => 0) best
      (by simp) (by simp at hla; omega) (by intro j'; simp) hb1 hb2
    exact ih (i + 1) _ _ (by simp at hla ⊢; omega)
      (fun j' => ⟨(h.1 j').1, by have := (h.1 j').2; omega⟩) h.2.1 h.2.2

theorem find_longest_match_bound (a b : List Char) :
    (find_longest_match a b).1 + (find_longest_match a b).2.2 ≤ a.length
    ∧ (find_longest_match a b).2.1 + (find_longest_match a b).2.2 ≤ b.length := by
  exact scanRows_bound b a.length a 0 (fun _ => 0) (0, 0, 0)
    (by simp) (by intro j'; simp) (by simp) (by simp)

theorem matchingTotal_le (fuel : Nat) : ∀ (a b : List Char),
    matchingTotal fuel a b ≤ a.length ∧ matchingTotal fuel a b ≤ b.length := by
  induction fuel with
  | zero => intro a b; simp [matchingTotal]
  | succ fuel ih =>
    intro a b
    simp only [matchingTotal]
    by_cases h : (find_longest_match a b).2.2 = 0
    · simp [h]
    · simp only [if_neg h]
      have hb := find_longest_match_bound a b
      have h1 := ih (a.take (find_longest_match a b).1) (b.take (find_longest_match a b).2.1)
      have h2 := ih (a.drop ((find_longest_match a b).1 + (find_longest_match a b).2.2))
        (b.drop ((find_longest_match a b).2.1 + (find_longest_match a b).2.2))
      simp only [List.length_take, List.length_drop] at h1 h2
      omega

theorem seqRatioQ_nonneg (a b : List Char) : 0 ≤ seqRatioQ a b := by
  rw [seqRatioQ]
  by_cases h : a.length + b.length = 0
  · simp [h]
  · simp only [if_neg h]
    apply div_nonneg
    · positivity
    · positivity

theorem seqRatioQ_le_one (a b : List Char) : seqRatioQ a b ≤ 1 := by
  rw [seqRatioQ]
  by_cases h : a.length + b.length = 0
  · simp [h]
  · simp only [if_neg h]
    have hpos : (0 : ℚ) < (a.length : ℚ) + (b.length : ℚ) := by
      exact_mod_cast Nat.pos_of_ne_zero h
    rw [div_le_one hpos]
    have hm := matchingTotal_le (a.length + b.length) a b
    have : (matchingTotal (a.length + b.length) a b : ℚ) ≤ a.length ∧
        (matchingTotal (a.length + b.length) a b : ℚ) ≤ b.length := by
      exact_mod_cast hm
    linarith [this.1, this.2]

theorem calculate_similarity_nonneg (t1 t2 : String) : 0 ≤ calculate_similarity t1 t2 :=
  seqRatioQ_nonneg _ _

theorem calculate_similarity_le_one (t1 t2 : String) : calculate_similarity t1 t2 ≤ 1 :=
  seqRatioQ_le_one _ _

theorem keyword_similarity_nonneg (t1 t2 : String) : 0 ≤ keyword_similarity t1 t2 := by
  rw [keyword_similarity]
  by_cases h : extract_keywords t1 = ∅ ∨ extract_keywords t2 = ∅
  · simp [h]
  · simp only [if_neg h]
    positivity

theorem keyword_similarity_le_one (t1 t2 : String) : keyword_similarity t1 t2 ≤ 1 := by
  rw [keyword_similarity]
  by_cases h : extract_keywords t1 = ∅ ∨ extract_keywords t2 = ∅
  · simp [h]
  · simp only [if_neg h]
    push_neg at h
    have hne : (extract_keywords t1 ∪ extract_keywords t2).Nonempty := by
      rcases Finset.nonempty_iff_ne_empty.mpr h.1 with ⟨x, hx⟩
      exact ⟨x, Finset.mem_union_left _ hx⟩
    have hcard : 0 < (extract_keywords t1 ∪ extract_keywords t2).card :=
      Finset.card_pos.mpr hne
    rw [div_le_one (by exact_mod_cast hcard)]
    exact_mod_cast Finset.card_le_card
      (Finset.Subset.trans (Finset.inter_subset_left) (Finset.subset_union_left))

/-! ## Lemmas: the sequence matcher on identical sequences

On `find_longest_match v v` the diagonal run dominates: after row `i` the
`j2len` map holds `i + 1` on the diagonal and the best block is
`(0, 0, i + 1)`, so the final best block is the whole sequence and the ratio
is `1`. -/

theorem scanRowAux_refl (v : List Char) (i : Nat) (hi : i < v.length) (prev : Nat → Nat)
    (hdiag : i = 0 ∨ prev (i - 1) = i)
    (hprev : ∀ j', prev j' ≤ i ∧ prev j' ≤ j' + 1) (bs : List Char) :
    ∀ (j : Nat) (cur : Nat → Nat) (best : Nat × Nat × Nat),
    bs = v.drop j →
    ((j ≤ i ∧ best = (0, 0, i)) ∨ (i < j ∧ best = (0, 0, i + 1) ∧ cur i = i + 1)) →
    (scanRowAux (v[i]) i prev bs j cur best).2 = (0, 0, i + 1)
    ∧ (scanRowAux (v[i]) i prev bs j cur best).1 i = i + 1 := by
  induction bs with
  | nil =>
    intro j cur best hbs hstate
    rcases hstate with ⟨hji, _⟩ | ⟨_, hbest, hcuri⟩
    · exfalso
      have := congrArg List.length hbs
      simp [List.length_drop] at this
      omega
    · simpa [scanRowAux] using ⟨hbest, hcuri⟩
  | cons c bs ih =>
    intro j cur best hbs hstate
    have hj : j < v.length := by
      have := congrArg List.length hbs
      simp [List.length_drop] at this
      omega
    rw [List.drop_eq_getElem_cons hj, List.cons.injEq] at hbs
    obtain ⟨hc, hbs'⟩ := hbs
    rcases hstate with ⟨hji, hbest⟩ | ⟨hij, hbest, hcuri⟩
    · by_cases hij : j = i
      · have hcai : c = v[i] := by subst hij; exact hc
        have hk : (if j = 0 then 1 else prev (j - 1) + 1) = i + 1 := by
          by_cases hj0 : j = 0
          · rw [if_pos hj0]; omega
          · have hi0 : i ≠ 0 := by omega
            rcases hdiag with h0 | hd
            · exact absurd h0 hi0
            · rw [if_neg hj0, hij, hd]
        have hup : best.2.2 < i + 1 := by
          rw [hbest]
          exact Nat.lt_succ_self i
        simp only [scanRowAux, if_pos hcai, hk, if_pos hup]
        apply ih (j + 1) _ _ hbs'
        right
        refine ⟨by omega, by simp [hij], ?_⟩
        subst hij
        simp
      · have hji' : j < i := lt_of_le_of_ne hji hij
        have hknb : ¬ best.2.2 < (if j = 0 then 1 else prev (j - 1) + 1) := by
          rw [hbest]
          simp only [not_lt]
          by_cases hj0 : j = 0
          · simp [hj0]; omega
          · have := (hprev (j - 1)).2
            rw [if_neg hj0]
            omega
        by_cases hcai : c = v[i]
        · simp only [scanRowAux, if_pos hcai, if_neg hknb]
          apply ih (j + 1) _ _ hbs'
          left
          exact ⟨by omega, hbest⟩
        · simp only [scanRowAux, if_neg hcai]
          apply ih (j + 1) _ _ hbs'
          left
          exact ⟨by omega, hbest⟩
    · by_cases hcai : c = v[i]
      · have hknb : ¬ best.2.2 < (if j = 0 then 1 else prev (j - 1) + 1) := by
          rw [hbest]
          simp only [not_lt]
          by_cases hj0 : j = 0
          · simp [hj0]
          · have := (hprev (j - 1)).1
            rw [if_neg hj0]
            omega
        simp only [scanRowAux, if_pos hcai, if_neg hknb]
        apply ih (j + 1) _ _ hbs'
        right
        refine ⟨by omega, hbest, ?_⟩
        have : i ≠ j := by omega
        simp [this, hcuri]
      · simp only [scanRowAux, if_neg hcai]
        apply ih (j + 1) _ _ hbs'
        right
        exact ⟨by omega, hbest, hcuri⟩

theorem scanRows_refl (v : List Char) (as' : List Char) :
    ∀ (i : Nat) (prev : Nat → Nat) (best : Nat × Nat × Nat),
    as' = v.drop i → i ≤ v.length →
    (i = 0 ∨ prev (i - 1) = i) →
    (∀ j', prev j' ≤ i ∧ prev j' ≤ j' + 1) →
    best = (0, 0, i) →
    scanRows v as' i prev best = (0, 0, v.length) := by
  induction as' with
  | nil =>
    intro i prev best has _ _ _ hbest
    have := congrArg List.length has
    simp [List.length_drop] at this
    have hi : i = v.length := by omega
    rw [scanRows, hbest, hi]
  | cons a as ih =>
    intro i prev best has hile hdiag hprev hbest
    have hi : i < v.length := by
      have := congrArg List.length has
      simp [List.length_drop] at this
      omega
    rw [List.drop_eq_getElem_cons hi, List.cons.injEq] at has
    obtain ⟨ha, has'⟩ := has
    simp only [scanRows]
    have hrow := scanRowAux_refl v i hi prev hdiag hprev v 0 (fun _ => 0) best
      (by simp) (Or.inl ⟨Nat.zero_le i, hbest⟩)
    have hbnd := scanRowAux_bound (v[i]) i v.length v.length prev hprev v 0 (fun _ => 0) best
      (by simp) hi (by intro j'; simp) (by rw [hbest]; simp; omega) (by rw [hbest]; simp; omega)
    rw [ha]
    exact ih (i + 1) _ _ has' (by omega)
      (Or.inr (by simpa using hrow.2))
      (fun j' => ⟨(hbnd.1 j').1, (hbnd.1 j').2⟩)
      hrow.1

theorem find_longest_match_refl (v : List Char) :
    find_longest_match v v = (0, 0, v.length) := by
  rw [find_longest_match]
  exact scanRows_refl v v 0 (fun _ => 0) (0, 0, 0) (by simp) (by simp)
    (Or.inl rfl) (by intro j'; simp) rfl

theorem matchingTotal_nil_left (fuel : Nat) (b : List Char) :
    matchingTotal fuel [] b = 0 := by
  cases fuel with
  | zero => rfl
  | succ fuel =>
    simp [matchingTotal, find_longest_match, scanRows]

theorem matchingTotal_refl (v : List Char) (hv : v ≠ []) (fuel : Nat) :
    matchingTotal (fuel + 1) v v = v.length := by
  simp only [matchingTotal, find_longest_match_refl]
  have hlen2 : v.length ≠ 0 := by have := List.length_pos.mpr hv; omega
  rw [if_neg hlen2]
  simp [matchingTotal_nil_left]

theorem seqRatioQ_refl (v : List Char) (hv : v ≠ []) : seqRatioQ v v = 1 := by
  have hlen : v.length ≠ 0 := by have := List.length_pos.mpr hv; omega
  rw [seqRatioQ, if_neg (by omega)]
  obtain ⟨fuel, hfuel⟩ : ∃ m, v.length + v.length = m + 1 := ⟨v.length + v.length - 1, by omega⟩
  rw [hfuel, matchingTotal_refl v hv fuel]
  have : (v.length : ℚ) ≠ 0 := by exact_mod_cast hlen
  field_simp
  ring

theorem strLower_ne_nil (s : String) (hs : s ≠ "") : strLower s ≠ [] := by
  rw [strLower]
  intro h
  simp only [List.map_eq_nil_iff] at h
  exact hs (String.ext (h.trans rfl))

theorem calculate_similarity_self (a : String) (ha : a ≠ "") :
    calculate_similarity a a = 1 := by
  rw [calculate_similarity]
  exact seqRatioQ_refl _ (strLower_ne_nil a ha)

theorem calculate_similarity_empty_left (b : String) (hb : b ≠ "") :
    calculate_similarity "" b = 0 := by
  rw [calculate_similarity]
  have h0 : strLower "" = [] := rfl
  rw [h0, seqRatioQ]
  have hlen : (strLower b).length ≠ 0 := by
    have := List.length_pos.mpr (strLower_ne_nil b hb)
    omega
  rw [if_neg (by simpa using hlen)]
  simp [matchingTotal_nil_left]

theorem calculate_similarity_empty_empty : calculate_similarity "" "" = 1 := by
  rw [calculate_similarity]
  rfl

/-! ## Lemmas: greedy matcher -/

theorem pickBest_mem_aux (l : List Cand) :
    ∀ (acc : Option Cand) (p : Cand),
    l.foldl
      (fun acc q =>
        match acc with
        | none => some q
        | some r => if betterCand q r then some q else some r)
      acc = some p →
    p ∈ l ∨ acc = some p := by
  induction l with
  | nil =>
    intro acc p h
    right
    simpa using h
  | cons q l ih =>
    intro acc p h
    simp only [List.foldl_cons] at h
    rcases ih _ p h with hm | hacc
    · exact Or.inl (List.mem_cons_of_mem _ hm)
    · cases acc with
      | none =>
        left
        simp only [Option.some.injEq] at hacc
        simp [hacc]
      | some r =>
        have hacc' : (if betterCand q r = true then some q else some r) = some p := hacc
        by_cases hb : betterCand q r = true
        · rw [if_pos hb] at hacc'
          left
          simp only [Option.some.injEq] at hacc'
          simp [hacc']
        · rw [if_neg hb] at hacc'
          exact Or.inr hacc'

theorem pickBest_mem (cands : List Cand) (p : Cand) (h : pickBest cands = some p) :
    p ∈ cands := by
  rcases pickBest_mem_aux cands none p h with hm | hacc
  · exact hm
  · exact absurd hacc (by simp)

theorem greedyAssign_subset (fuel : Nat) : ∀ (cands : List Cand),
    ∀ p ∈ greedyAssign fuel cands, p ∈ cands := by
  induction fuel with
  | zero =>
    intro cands p hp
    simp [greedyAssign] at hp
  | succ fuel ih =>
    intro cands p hp
    simp only [greedyAssign] at hp
    cases hq : pickBest cands with
    | none => rw [hq] at hp; simp at hp
    | some q =>
      rw [hq] at hp
      rcases List.mem_cons.mp hp with rfl | hp'
      · exact pickBest_mem cands p hq
      · exact List.mem_of_mem_filter (ih _ p hp')

theorem greedyAssign_nodup (fuel : Nat) : ∀ (cands : List Cand),
    ((greedyAssign fuel cands).map (fun p => p.c)).Nodup
    ∧ ((greedyAssign fuel cands).map (fun p => p.o)).Nodup := by
  induction fuel with
  | zero => intro cands; simp [greedyAssign]
  | succ fuel ih =>
    intro cands
    simp only [greedyAssign]
    cases hq : pickBest cands with
    | none => simp
    | some q =>
      simp only [List.map_cons, List.nodup_cons]
      refine ⟨⟨?_, (ih _).1⟩, ⟨?_, (ih _).2⟩⟩
      · intro hmem
        simp only [List.mem_map] at hmem
        obtain ⟨r, hr, hrc⟩ := hmem
        have hrf := greedyAssign_subset fuel _ r hr
        simp only [List.mem_filter, Bool.and_eq_true, ne_eq, decide_eq_true_eq] at hrf
        exact hrf.2.1 hrc
      · intro hmem
        simp only [List.mem_map] at hmem
        obtain ⟨r, hr, hro⟩ := hmem
        have hrf := greedyAssign_subset fuel _ r hr
        simp only [List.mem_filter, Bool.and_eq_true, ne_eq, decide_eq_true_eq] at hrf
        exact hrf.2.2 hro

/-! ## Lemmas: orchestrator -/

theorem validDetection_eq_true (d : CurrentDetection) :
    validDetection d = true
      ↔ d.description ≠ "" ∧ 0 ≤ d.detectionConfidence ∧ d.detectionConfidence ≤ 1 := by
  simp [validDetection, and_assoc]

theorem match_tasks_invalid (current : List CurrentDetection) (open_tasks : List Task)
    (threshold : ℚ) (d : CurrentDetection) (hd : d ∈ current)
    (hbad : d.description = "" ∨ d.detectionConfidence < 0 ∨ 1 < d.detectionConfidence) :
    match_tasks current open_tasks threshold = Except.error EngineError.invalidInput := by
  rw [match_tasks, if_pos]
  intro hall
  have hv := (List.all_eq_true.mp hall) d hd
  rw [validDetection_eq_true] at hv
  rcases hbad with h | h | h
  · exact hv.1 h
  · exact absurd hv.2.1 (by linarith)
  · exact absurd hv.2.2 (by linarith)

theorem reconcile_zone_invalid (current : List CurrentDetection) (tasks : List Task)
    (threshold : ℚ) (d : CurrentDetection) (hd : d ∈ current)
    (hbad : d.description = "" ∨ d.detectionConfidence < 0 ∨ 1 < d.detectionConfidence) :
    reconcile_zone current tasks threshold = Except.error EngineError.invalidInput := by
  rw [reconcile_zone, match_tasks_invalid current _ threshold d hd hbad]

theorem reconcile_zone_ok_shape (current : List CurrentDetection) (tasks : List Task)
    (threshold : ℚ) (tasks' : List Task) (res : AnalysisResult)
    (h : reconcile_zone current tasks threshold = Except.ok (tasks', res)) :
    ∃ r : MatchResult,
      match_tasks current (tasks.filter fun t => t.status = TaskStatus.pending) threshold
          = Except.ok r
      ∧ tasks' =
          (tasks.map fun t =>
            if t.status = TaskStatus.pending then
              if r.reinforced.any fun p => p.1 = t.id then reinforce t
              else if r.unmatched_open.any fun i => i = t.id then
                apply_auto_completion t (current.map fun d => d.description)
              else t
            else t)
          ++ (r.new.map fun d => create_new_task d.description d.detectionConfidence) := by
  rw [reconcile_zone] at h
  cases hm : match_tasks current (tasks.filter fun t => t.status = TaskStatus.pending) threshold with
  | error e => rw [hm] at h; exact absurd h (by simp)
  | ok r =>
    rw [hm] at h
    refine ⟨r, rfl, ?_⟩
    simp only [Except.ok.injEq, Prod.mk.injEq] at h
    exact h.1.symm

theorem reconcile_preserves_nonpending (current : List CurrentDetection) (tasks : List Task)
    (threshold : ℚ) (tasks' : List Task) (res : AnalysisResult)
    (h : reconcile_zone current tasks threshold = Except.ok (tasks', res))
    (t : Task) (ht : t ∈ tasks) (hs : t.status ≠ TaskStatus.pending) :
    t ∈ tasks' := by
  obtain ⟨r, _, hshape⟩ := reconcile_zone_ok_shape current tasks threshold tasks' res h
  rw [hshape]
  apply List.mem_append_left
  have hft : (fun t : Task =>
      if t.status = TaskStatus.pending then
        if r.reinforced.any fun p => p.1 = t.id then reinforce t
        else if r.unmatched_open.any fun i => i = t.id then
          apply_auto_completion t (current.map fun d => d.description)
        else t
      else t) t = t := if_neg hs
  exact hft ▸ List.mem_map_of_mem _ ht

/-! ## Lemmas: completion rule characterisation -/

theorem should_auto_complete_eq (task : Task) (current : List String) :
    should_auto_complete task current =
      if 2 ≤ task.detection_count
          ∧ ¬ ∃ ct ∈ current, (6 : ℚ)/10 < calculate_similarity task.description ct then
        (true, 9/10, "Task was consistently detected before but not found in current analysis")
      else if (8 : ℚ)/10 < task.confidence_score
          ∧ ¬ ∃ ct ∈ current, (5 : ℚ)/10 < calculate_similarity task.description ct then
        (true, 8/10, "High-confidence task no longer detected")
      else if 7 ≤ task.age_days
          ∧ ¬ ∃ ct ∈ current, (4 : ℚ)/10 < calculate_similarity task.description ct then
        (true, 7/10, "Long-standing task no longer detected")
      else (false, 0, "Task still appears to be present") := by
  simp only [should_auto_complete, COMPLETION_RULES]
  by_cases h1 : 2 ≤ task.detection_count
      ∧ ¬ ∃ ct ∈ current, (6 : ℚ)/10 < calculate_similarity task.description ct
  · rw [List.find?_cons_of_pos _ (by simpa using h1), if_pos h1]
  · rw [List.find?_cons_of_neg _ (by simpa using h1), if_neg h1]
    by_cases h2 : (8 : ℚ)/10 < task.confidence_score
        ∧ ¬ ∃ ct ∈ current, (5 : ℚ)/10 < calculate_similarity task.description ct
    · rw [List.find?_cons_of_pos _ (by simpa using h2), if_pos h2]
    · rw [List.find?_cons_of_neg _ (by simpa using h2), if_neg h2]
      by_cases h3 : 7 ≤ task.age_days
          ∧ ¬ ∃ ct ∈ current, (4 : ℚ)/10 < calculate_similarity task.description ct
      · rw [List.find?_cons_of_pos _ (by simpa using h3), if_pos h3]
      · rw [List.find?_cons_of_neg _ (by simpa using h3), if_neg h3]
        rfl

theorem calc_sim_eval (t1 t2 : String) (l1 l2 : List Char) (m n k : Nat)
    (h1 : strLower t1 = l1) (h2 : strLower t2 = l2)
    (hm : l1.length = m) (hn : l2.length = n)
    (hk : matchingTotal (m + n) l1 l2 = k) (hmn : m + n ≠ 0) :
    calculate_similarity t1 t2 = 2 * (k : ℚ) / ((m : ℚ) + (n : ℚ)) := by
  rw [calculate_similarity, seqRatioQ, h1, h2, hm, hn, if_neg hmn, hk]

theorem kw_sim_eval (t1 t2 : String) (i u : Nat)
    (hne : ¬(extract_keywords t1 = ∅ ∨ extract_keywords t2 = ∅))
    (hi : (extract_keywords t1 ∩ extract_keywords t2).card = i)
    (hu : (extract_keywords t1 ∪ extract_keywords t2).card = u) :
    keyword_similarity t1 t2 = (i : ℚ) / (u : ℚ) := by
  rw [keyword_similarity, if_neg hne, hi, hu]

/-! ## Auxiliary lemmas for the claim theorems -/

theorem reinforceN_fields (n : Nat) (task : Task) :
    (reinforceN n task).detection_count = task.detection_count + n
    ∧ (reinforceN n task).confidence_score = task.confidence_score := by
  induction n with
  | zero => simp [reinforceN]
  | succ n ih =>
    simp only [reinforceN, reinforce]
    exact ⟨by rw [ih.1]; omega, ih.2⟩

theorem specificity_bounds (d : String) :
    0 ≤ calculate_task_specificity d ∧ calculate_task_specificity d ≤ 1 := by
  rw [calculate_task_specificity]
  constructor
  · rcases le_total (1 : ℚ)
      ((if specific_indicators.any fun ind => containsSeq (strLower ind) (strLower d)
          then (4 : ℚ)/10 else 0)
        + (if object_indicators.any fun ind => containsSeq (strLower ind) (strLower d)
          then (3 : ℚ)/10 else 0)
        + (if location_indicators.any fun ind => containsSeq (strLower ind) (strLower d)
          then (3 : ℚ)/10 else 0)) with h | h
    · rw [min_eq_left h]; norm_num
    · rw [min_eq_right h]
      split_ifs <;> norm_num
  · exact min_le_left _ _

/-! ## Claim theorems -/

/-- C1 (counterexample): the claim says a task is `auto_completed` iff
`shouldResolve` is true and the returned confidence reaches the zone's
`resolution_confidence_floor`.  On the task of spec scenario 4 (age 10 days,
low confidence, single detection, empty current cycle) rule 3 fires with
confidence `0.7`; with a floor of `0.8` the claim predicts `pending`, but the
source's `process_analysis_results` marks it `auto_completed`: no floor is
consulted anywhere in the source. -/
theorem confidence_floor_counterexample :
    ¬ (((apply_auto_completion ⟨0, "dust the shelf", TaskStatus.pending, 0, 1, 10⟩ []).status
          = TaskStatus.auto_completed)
        ↔ ((should_auto_complete ⟨0, "dust the shelf", TaskStatus.pending, 0, 1, 10⟩ []).1 = true
            ∧ (8 : ℚ)/10 ≤ (should_auto_complete ⟨0, "dust the shelf", TaskStatus.pending, 0, 1, 10⟩ []).2.1)) := by
  have hs : should_auto_complete ⟨0, "dust the shelf", TaskStatus.pending, 0, 1, 10⟩ []
      = (true, 7/10, "Long-standing task no longer detected") := by
    norm_num [should_auto_complete, COMPLETION_RULES, List.find?]
  intro hiff
  have ha : (apply_auto_completion ⟨0, "dust the shelf", TaskStatus.pending, 0, 1, 10⟩ []).status
      = TaskStatus.auto_completed := by
    rw [apply_auto_completion, hs]
    simp
  have := (hiff.mp ha).2
  rw [hs] at this
  norm_num at this

/-- C1 (amended): in the source, an unmatched open task's status is set to
`auto_completed` if and only if `should_auto_complete` returns `True`; the
returned confidence is only logged, and no `resolution_confidence_floor`
exists or is compared against. -/
theorem auto_completed_iff_should_resolve (task : Task) (current : List String)
    (hp : task.status = TaskStatus.pending) :
    (apply_auto_completion task current).status = TaskStatus.auto_completed
      ↔ (should_auto_complete task current).1 = true := by
  rw [apply_auto_completion]
  by_cases h : (should_auto_complete task current).1 = true
  · rw [if_pos h]
    simp [h]
  · rw [if_neg h]
    simp [hp, h]

theorem auto_completed_iff_should_resolve_witness :
    (⟨1, "pick up shirt from floor", TaskStatus.pending, 0, 3, 0⟩ : Task).status
        = TaskStatus.pending
    ∧ ((apply_auto_completion ⟨1, "pick up shirt from floor", TaskStatus.pending, 0, 3, 0⟩ []).status
          = TaskStatus.auto_completed
        ↔ (should_auto_complete ⟨1, "pick up shirt from floor", TaskStatus.pending, 0, 3, 0⟩ []).1
          = true) :=
  ⟨rfl, auto_completed_iff_should_resolve ⟨1, "pick up shirt from floor", TaskStatus.pending, 0, 3, 0⟩ [] rfl⟩

/-- C2 (counterexample): the claim says no operation ever changes the status
of a non-`pending` task.  The source's `handle_false_auto_completion`
(user-feedback revert) sets an `auto_completed` task's status back to
`pending`. -/
theorem terminal_status_revert_counterexample :
    (⟨2, "fold the blanket", TaskStatus.auto_completed, 0, 2, 1⟩ : Task).status ≠ TaskStatus.pending
    ∧ (handle_false_auto_completion ⟨2, "fold the blanket", TaskStatus.auto_completed, 0, 2, 1⟩).status
        = TaskStatus.pending := by
  exact ⟨by simp [handle_false_auto_completion], rfl⟩

/-- C2 (amended): a reconciliation pass never mutates a non-`pending` task:
every such task reappears unchanged in the output task list.  (The claim's
universal form fails only because `handle_false_auto_completion` reverts
`auto_completed` tasks to `pending`; see the counterexample.) -/
theorem reconcile_preserves_terminal_tasks (current : List CurrentDetection)
    (tasks : List Task) (threshold : ℚ) (tasks' : List Task) (res : AnalysisResult)
    (h : reconcile_zone current tasks threshold = Except.ok (tasks', res))
    (t : Task) (ht : t ∈ tasks) (hs : t.status ≠ TaskStatus.pending) :
    t ∈ tasks' :=
  reconcile_preserves_nonpending current tasks threshold tasks' res h t ht hs

theorem reconcile_preserves_terminal_tasks_witness :
    reconcile_zone [] [⟨3, "wash the window", TaskStatus.completed, 1, 1, 0⟩] 1
        = Except.ok ([⟨3, "wash the window", TaskStatus.completed, 1, 1, 0⟩], ⟨0, 0, 0⟩)
    ∧ (⟨3, "wash the window", TaskStatus.completed, 1, 1, 0⟩ : Task)
        ∈ [(⟨3, "wash the window", TaskStatus.completed, 1, 1, 0⟩ : Task)] := by
  have h : reconcile_zone [] [⟨3, "wash the window", TaskStatus.completed, 1, 1, 0⟩] 1
      = Except.ok ([⟨3, "wash the window", TaskStatus.completed, 1, 1, 0⟩], ⟨0, 0, 0⟩) := by
    simp [reconcile_zone, match_tasks, matchAssignment, candidatePairs, greedyAssign, pickBest]
  exact ⟨h,
    reconcile_preserves_terminal_tasks [] _ 1 _ ⟨0, 0, 0⟩ h _ (by simp) (by simp)⟩

/-- C3: the Completion Rule Evaluator applies exactly the three source rules
in order with first match winning — (1) `detection_count ≥ 2` with no current
description of similarity above `0.6` gives confidence `0.9`; (2)
`confidence_score > 0.8` with none above `0.5` gives `0.8`; (3) age at least
7 days with none above `0.4` gives `0.7`; otherwise
`(False, 0.0, "Task still appears to be present")`. -/
theorem completion_rules_ordered_first_match (task : Task) (current : List String) :
    should_auto_complete task current =
      if 2 ≤ task.detection_count
          ∧ ¬ ∃ ct ∈ current, (6 : ℚ)/10 < calculate_similarity task.description ct then
        (true, 9/10, "Task was consistently detected before but not found in current analysis")
      else if (8 : ℚ)/10 < task.confidence_score
          ∧ ¬ ∃ ct ∈ current, (5 : ℚ)/10 < calculate_similarity task.description ct then
        (true, 8/10, "High-confidence task no longer detected")
      else if 7 ≤ task.age_days
          ∧ ¬ ∃ ct ∈ current, (4 : ℚ)/10 < calculate_similarity task.description ct then
        (true, 7/10, "Long-standing task no longer detected")
      else (false, 0, "Task still appears to be present") :=
  should_auto_complete_eq task current

/-- C4: the matching the Task Matcher produces is a partial one-to-one
correspondence — no current detection index occurs twice and no open task id
occurs twice in the assignment. -/
theorem matcher_no_double_assignment (current : List CurrentDetection)
    (open_tasks : List Task) (threshold : ℚ) :
    ((matchAssignment current open_tasks threshold).map fun p => p.c).Nodup
    ∧ ((matchAssignment current open_tasks threshold).map fun p => p.o).Nodup := by
  rw [matchAssignment]
  exact greedyAssign_nodup _ _

/-- C5 (counterexample): the claim says `similarity(a, b)` is the weighted
average `0.5 * sequence-ratio + 0.5 * keyword-Jaccard`.  On
`a = "the"`, `b = "cat the"` the source's `calculate_similarity` returns the
plain sequence ratio `0.6`, while the claimed combination (`similarity_spec`)
gives `0.3`: the source never combines the two measures. -/
theorem combined_similarity_counterexample :
    calculate_similarity "the" "cat the" = 3/5
    ∧ similarity_spec "the" "cat the" = 3/10
    ∧ ¬ ((3 : ℚ)/5 = 3/10) := by
  have hc : calculate_similarity "the" "cat the" = 3/5 := by
    rw [calc_sim_eval "the" "cat the" ['t', 'h', 'e'] ['c', 'a', 't', ' ', 't', 'h', 'e'] 3 7 3
      (by decide) (by decide) (by decide) (by decide) (by decide) (by norm_num)]
    norm_num
  have hk : keyword_similarity "the" "cat the" = 0 := by decide
  refine ⟨hc, ?_, by norm_num⟩
  rw [similarity_spec, hc, hk]
  norm_num

/-- C5 (amended): the source's `calculate_similarity` is the character
sequence ratio alone (of the lower-cased strings) and always lies in
`[0, 1]`; the keyword Jaccard ratio is a separate function, also in `[0, 1]`;
no weighted combination of the two exists in the source. -/
theorem similarity_measures_bounds (a b : String) :
    0 ≤ calculate_similarity a b ∧ calculate_similarity a b ≤ 1
    ∧ 0 ≤ keyword_similarity a b ∧ keyword_similarity a b ≤ 1 :=
  ⟨calculate_similarity_nonneg a b, calculate_similarity_le_one a b,
   keyword_similarity_nonneg a b, keyword_similarity_le_one a b⟩

/-- C6 (counterexample): the claim says similarity is `0.0` whenever either
argument is empty; but `SequenceMatcher.ratio()` returns `1.0` when both
sequences are empty (`_calculate_ratio` with total length 0), so
`calculate_similarity "" "" = 1`, not `0`. -/
theorem empty_empty_similarity_counterexample :
    calculate_similarity "" "" = 1 ∧ ¬ ((1 : ℚ) = 0) :=
  ⟨calculate_similarity_empty_empty, by norm_num⟩

/-- C6 (amended): `similarity(a, a) = 1` for non-empty `a`, and an empty
string against a non-empty one yields `0` (the rational division is total, so
no division by zero can occur); but when both arguments are empty the result
is `1`, not `0`. -/
theorem similarity_identity_and_empty (a b : String) :
    (a ≠ "" → calculate_similarity a a = 1)
    ∧ (b ≠ "" → calculate_similarity "" b = 0)
    ∧ calculate_similarity "" "" = 1 :=
  ⟨fun ha => calculate_similarity_self a ha,
   fun hb => calculate_similarity_empty_left b hb,
   calculate_similarity_empty_empty⟩

theorem similarity_identity_and_empty_witness :
    calculate_similarity "dust" "dust" = 1 ∧ calculate_similarity "" "wash" = 0 :=
  ⟨(similarity_identity_and_empty "dust" "wash").1 (by decide),
   (similarity_identity_and_empty "dust" "wash").2.1 (by decide)⟩

/-- C7 (counterexample): the claim says a reinforced task's
`confidence_score` is replaced by `0.7*old + 0.3*new`.  The source's
reinforcement step calls only `increment_detection_count(task_id)` — the task
id is its sole argument, so no new detection confidence is even available —
and the confidence stays unchanged: for `old = 0`, `new = 1` the claim
predicts `0.3`, the code leaves `0`. -/
theorem reinforcement_confidence_counterexample :
    (reinforce ⟨4, "wash the cup", TaskStatus.pending, 0, 1, 0⟩).detection_count = 2
    ∧ (reinforce ⟨4, "wash the cup", TaskStatus.pending, 0, 1, 0⟩).confidence_score = 0
    ∧ ¬ ((0 : ℚ) = 7/10 * 0 + 3/10 * 1) :=
  ⟨rfl, rfl, by norm_num⟩

/-- C7 (amended): each reinforcement increments `detection_count` by exactly
one and leaves `confidence_score` unchanged; a task created with
`detection_count = 1` has `detection_count = 1 + N` after `N` reinforcement
events. -/
theorem reinforcement_detection_count (task : Task) (n : Nat) (d : String) (c : ℚ) :
    (reinforceN n task).detection_count = task.detection_count + n
    ∧ (reinforceN n task).confidence_score = task.confidence_score
    ∧ (reinforceN n (create_new_task d c)).detection_count = 1 + n := by
  refine ⟨(reinforceN_fields n task).1, (reinforceN_fields n task).2, ?_⟩
  rw [(reinforceN_fields n (create_new_task d c)).1]
  simp [create_new_task]

/-- C8 (counterexample): the claim says `adjust()` also lowers the zone's
`resolution_confidence_floor` by `0.1` (to `0.6`) when accuracy exceeds
`0.9`.  The source's `adjust_similarity_threshold` returns a single float and
no repository code computes or writes a resolution confidence floor: applying
the source's adjustment to a zone's thresholds leaves the floor at its prior
default `0.7`, while the spec's `adjust_spec` demands `0.6`. -/
theorem resolution_floor_adjustment_counterexample :
    (adjustZone (19/20) ⟨3/4, 7/10⟩).resolution_confidence_floor = 7/10
    ∧ (adjust_spec (19/20)).resolution_confidence_floor = 3/5
    ∧ ¬ ((7 : ℚ)/10 = 3/5) := by
  refine ⟨rfl, ?_, by norm_num⟩
  rw [adjust_spec, if_pos (by norm_num)]
  norm_num [clampThreshold, min_def, max_def]

/-- C8 (amended): the source's threshold adaptation recomputes only the
similarity threshold — whose value agrees with the spec's similarity
component and always lies in `[0.3, 0.95]` (the three possible outputs are
`0.65`, `0.75`, `0.85`, so the clamp never binds) — and leaves any resolution
confidence floor untouched. -/
theorem threshold_adjustment_similarity_only (accuracy : ℚ) (z : ZoneThresholds) :
    (adjustZone accuracy z).similarity_threshold = (adjust_spec accuracy).similarity_threshold
    ∧ (adjustZone accuracy z).resolution_confidence_floor = z.resolution_confidence_floor
    ∧ 3/10 ≤ (adjustZone accuracy z).similarity_threshold
    ∧ (adjustZone accuracy z).similarity_threshold ≤ 19/20 := by
  refine ⟨?_, rfl, ?_, ?_⟩ <;>
    simp only [adjustZone, adjust_similarity_threshold, adjust_spec, clampThreshold] <;>
    split_ifs <;>
    norm_num [min_def, max_def]

/-- C9: if the Matcher step fails on malformed input (empty description or a
detection confidence outside `[0, 1]`), the zone's whole cycle aborts with an
`InvalidInputError`, the zone's task state is unchanged, and every other
zone's reconciliation depends only on its own input. -/
theorem invalid_input_aborts_zone_cycle (inputs : Nat → List CurrentDetection)
    (thresholds : Nat → ℚ) (state : Nat → List Task) (z : Nat) (d : CurrentDetection)
    (hd : d ∈ inputs z)
    (hbad : d.description = "" ∨ d.detectionConfidence < 0 ∨ 1 < d.detectionConfidence) :
    reconcile_zone (inputs z) (state z) (thresholds z) = Except.error EngineError.invalidInput
    ∧ run_cycle inputs thresholds state z = state z
    ∧ ∀ (z' : Nat) (inputs' : Nat → List CurrentDetection), inputs' z' = inputs z' →
        run_cycle inputs' thresholds state z' = run_cycle inputs thresholds state z' := by
  have he := reconcile_zone_invalid (inputs z) (state z) (thresholds z) d hd hbad
  refine ⟨he, by simp [run_cycle, he], ?_⟩
  intro z' inputs' h
  simp [run_cycle, h]

theorem invalid_input_aborts_zone_cycle_witness :
    ((⟨"spill", 2⟩ : CurrentDetection) ∈ [(⟨"spill", 2⟩ : CurrentDetection)])
    ∧ reconcile_zone [⟨"spill", 2⟩] [] 1 = Except.error EngineError.invalidInput
    ∧ run_cycle (fun _ => [⟨"spill", 2⟩]) (fun _ => 1) (fun _ => []) 0 = [] := by
  refine ⟨by simp, ?_, ?_⟩
  · exact (invalid_input_aborts_zone_cycle (fun _ => [⟨"spill", 2⟩]) (fun _ => 1)
      (fun _ => []) 0 ⟨"spill", 2⟩ (by simp) (by right; right; norm_num)).1
  · exact (invalid_input_aborts_zone_cycle (fun _ => [⟨"spill", 2⟩]) (fun _ => 1)
      (fun _ => []) 0 ⟨"spill", 2⟩ (by simp) (by right; right; norm_num)).2.1

/-- C10: a task created from a new description has `status = pending`,
`detection_count = 1`, and confidence
`detectionConfidence * (0.8 + 0.2 * specificity)` where
`calculate_task_specificity` is the source's curated-list scorer (`0.4` for
an action verb, `+0.3` for an object noun, `+0.3` for a location noun, capped
at `1.0`); the `min(1.0, ·)` cap of `calculate_task_confidence` never binds
for a valid detection confidence in `[0, 1]`. -/
theorem create_task_fields (d : String) (c : ℚ) (h0 : 0 ≤ c) (h1 : c ≤ 1) :
    (create_new_task d c).status = TaskStatus.pending
    ∧ (create_new_task d c).detection_count = 1
    ∧ (create_new_task d c).confidence_score
        = c * (8/10 + 2/10 * calculate_task_specificity d) := by
  refine ⟨rfl, rfl, ?_⟩
  have hs := specificity_bounds d
  have hfac0 : (0 : ℚ) ≤ 8/10 + 2/10 * calculate_task_specificity d := by linarith [hs.1]
  have hfac1 : 8/10 + 2/10 * calculate_task_specificity d ≤ 1 := by linarith [hs.2]
  have hle : c * (8/10 + 2/10 * calculate_task_specificity d) ≤ 1 :=
    mul_le_one₀ h1 hfac0 hfac1
  show create_task_confidence d c = _
  rw [create_task_confidence, min_eq_right hle]

theorem create_task_fields_witness :
    (create_new_task "pick up shirt from floor" 1).status = TaskStatus.pending
    ∧ (create_new_task "pick up shirt from floor" 1).detection_count = 1
    ∧ (create_new_task "pick up shirt from floor" 1).confidence_score
        = 1 * (8/10 + 2/10 * calculate_task_specificity "pick up shirt from floor") :=
  create_task_fields "pick up shirt from floor" 1 (by norm_num) (by norm_num)

end AiClean
